import Mathlib

/-!
Verification development for the snarl decomposition, classification and
representative-traversal-finding core of `genotypekit.cpp` (vg).

The C++ data model and the algorithms under test are shallowly embedded:
protobuf messages become structures/inductives, `std::list`/`std::vector`
become `List`, `std::set` membership becomes list membership with explicit
dedup-insertion, `double` support counts become `ℚ`, and C++ `assert` /
`throw runtime_error` become `Except` errors.  External collaborators
(graph storage, the cactus decomposition, `snarl_manager.visits_left`,
`to_left_side`, support lookup) enter as explicit parameters, matching the
source's use of them as opaque calls.
-/

namespace VG

/-- An oriented reference to a node: the payload of a node `Visit`
(`node_id`, `backward`). -/
structure NodeVisit where
  id : Nat
  backward : Bool
deriving DecidableEq, Repr

/-- A `Visit` (genotypekit/snarls): either an oriented node, or an oriented
child snarl given by the child's boundary `start`/`end` node visits.
`node_id() == 0` in the C++ corresponds to the `snarl` constructor. -/
inductive Visit where
  | node (id : Nat) (backward : Bool)
  | snarl (s e : NodeVisit) (backward : Bool)
deriving DecidableEq, Repr

namespace Visit

/-- `reverse(Visit)`: toggle the `backward` flag. -/
def rev : Visit → Visit
  | .node i b => .node i (!b)
  | .snarl s e b => .snarl s e (!b)

/-- Is this a visit to a node (C++ `visit.node_id() != 0`)? -/
def isNode : Visit → Bool
  | .node _ _ => true
  | .snarl _ _ _ => false

end Visit

/-- The snarl type tags of the `SnarlType` enum. -/
inductive SnarlType where
  | UNARY
  | ULTRABUBBLE
  | UNCLASSIFIED
deriving DecidableEq, Repr

/-- The connectivity/acyclicity flags computed for a snarl before the
classification step of `recursively_emit_snarls` (lines 731-843). -/
structure Connectivity where
  start_end_reachable : Bool
  start_self_reachable : Bool
  end_self_reachable : Bool
  directed_acyclic_net_graph : Bool
deriving DecidableEq, Repr

/-- The `all_ultrabubble_children` double loop of
`recursively_emit_snarls` (lines 868-879): scan every child snarl of
every child chain, and fail if any child's type is not `ULTRABUBBLE`. -/
def all_ultrabubble_children (child_chains : List (List SnarlType)) : Bool :=
  child_chains.all (fun chain => chain.all (fun t => t = .ULTRABUBBLE))

/-- The classification decision chain of `recursively_emit_snarls`
(lines 846-904), as a function of the start and end visits, the computed
connectivity flags, and the types of the children in each child chain. -/
def classify (s e : NodeVisit) (conn : Connectivity)
    (child_chains : List (List SnarlType)) : SnarlType :=
  if s.id = e.id then .UNARY
  else if !conn.start_end_reachable then .UNCLASSIFIED
  else if conn.start_self_reachable || conn.end_self_reachable then .UNCLASSIFIED
  else if !(all_ultrabubble_children child_chains) then .UNCLASSIFIED
  else if !conn.directed_acyclic_net_graph then .UNCLASSIFIED
  else .ULTRABUBBLE

/-- Support record (protobuf `Support`): forward, reverse, left and right
read counts plus a quality; `double` fields modelled as `ℚ`. -/
structure Support where
  forward : ℚ
  reverse : ℚ
  left : ℚ
  right : ℚ
  quality : ℚ
deriving DecidableEq, Repr

/-- `total(Support)` (lines 2709-2711): forward plus reverse. -/
def total (s : Support) : ℚ := s.forward + s.reverse

/-- `support_min` (lines 2713-2719): default-construct the result (all
fields zero) and then set forward, reverse and quality to the minima.
The `left` and `right` fields are never set, so they stay `0`. -/
def support_min (a b : Support) : Support :=
  { forward := min a.forward b.forward
    reverse := min a.reverse b.reverse
    left := 0
    right := 0
    quality := min a.quality b.quality }

/-- `operator+(Support, Support)` (lines 2729-2740): every field added. -/
def support_add (a b : Support) : Support :=
  { forward := a.forward + b.forward
    reverse := a.reverse + b.reverse
    left := a.left + b.left
    right := a.right + b.right
    quality := a.quality + b.quality }

/-! ### Snarl finding entry point (`CactusSnarlFinder::find_snarls`) -/

/-- The record a `SnarlManager` holds after snarl finding: its snarls
(start visit, end visit, type) and its chains (lists of snarl indices). -/
structure SnarlManagerModel where
  snarls : List (NodeVisit × NodeVisit × SnarlType)
  chains : List (List Nat)
deriving DecidableEq, Repr

/-- A default-constructed `SnarlManager()`: no snarls, no chains. -/
def SnarlManagerModel.empty : SnarlManagerModel := ⟨[], []⟩

/-- The input graph, as far as `find_snarls` inspects it before handing it
to the cactus decomposition: `graph.size()` counts nodes. -/
structure GraphModel where
  nodes : List Nat
deriving DecidableEq, Repr

def GraphModel.size (g : GraphModel) : Nat := g.nodes.length

/-- `CactusSnarlFinder::find_snarls` (lines 574-613).  The cactus
decomposition and recursive emission (lines 580-611) live outside the
empty-graph guard; they are abstracted as the `decomposition` argument,
invoked only when the graph is nonempty. -/
def find_snarls (decomposition : GraphModel → SnarlManagerModel)
    (g : GraphModel) : SnarlManagerModel :=
  if g.size = 0 then SnarlManagerModel.empty
  else decomposition g

/-! ### `RepresentativeTraversalFinder::find_traversals` -/

/-- The failures `find_traversals` can raise after the entry assertion:
`throw runtime_error` at the backbone trace (line 1609), the extra-ref-node
check (line 1730), and the anchor relocation inside `extend_into_allele`
(line 1874). -/
inductive LateFailure where
  | backboneTrace (msg : String)
  | extraRefNode (msg : String)
  | anchorNotFound (msg : String)
deriving DecidableEq, Repr

/-- All ways `find_traversals` can fail, including the entry
`assert(site.type() == ULTRABUBBLE)` at line 1540. -/
inductive TravFailure where
  | preconditionNotUltrabubble
  | backboneTrace (msg : String)
  | extraRefNode (msg : String)
  | anchorNotFound (msg : String)
deriving DecidableEq, Repr

/-- Injection of the post-assertion failures into the full failure type. -/
def LateFailure.lift : LateFailure → TravFailure
  | .backboneTrace m => .backboneTrace m
  | .extraRefNode m => .extraRefNode m
  | .anchorNotFound m => .anchorNotFound m

/-- The entry of `RepresentativeTraversalFinder::find_traversals`
(lines 1536-1540): assert the site is an ultrabubble before anything else
runs; the remainder of the function — every index access included — is the
`rest` argument, evaluated only after the assertion passes. -/
def find_traversals_entry (siteType : SnarlType)
    (rest : Except LateFailure (List (List Visit))) :
    Except TravFailure (List (List Visit)) :=
  if siteType = .ULTRABUBBLE then
    match rest with
    | .ok travs => .ok travs
    | .error e => .error e.lift
  else .error .preconditionNotUltrabubble

/-! ### Emission phase of `find_traversals` (lines 2052-2113) -/

/-- Reverse a visit list and flip each visit: the backward branch of
`emit_traversal` (lines 2071-2080). -/
def reverseFlip (l : List Visit) : List Visit :=
  (l.reverse).map Visit.rev

/-- The `emit_traversal` lambda (lines 2057-2098): if the primary path
runs backward through the site (`site_start > site_end`), emit the visits
reversed and flipped; otherwise emit them as they are. -/
def emit_traversal (site_start site_end : Nat) (visits : List Visit) :
    List Visit :=
  if site_start > site_end then reverseFlip visits else visits

/-- `site_traversal_set.insert(extended_path)` (line 1913): `std::set`
insertion keyed by exact visit sequence — a duplicate changes nothing. -/
def insertTraversal (s : List (List Visit)) (t : List Visit) :
    List (List Visit) :=
  if t ∈ s then s else s ++ [t]

/-- The traversal set accumulated over all spliced candidate paths. -/
def buildTraversalSet (candidates : List (List Visit)) : List (List Visit) :=
  candidates.foldl insertTraversal []

/-- The emission loop (lines 2100-2110): emit the ref path first, then
every member of the traversal set other than the ref path. -/
def emission_phase (site_start site_end : Nat) (ref : List Visit)
    (travSet : List (List Visit)) : List (List Visit) :=
  emit_traversal site_start site_end ref ::
    (travSet.filter (fun v => v ≠ ref)).map (emit_traversal site_start site_end)

/-! ### Right-anchor relocation inside `extend_into_allele`
(lines 1828-1876) -/

/-- Turn a boundary node visit into a `Visit`. -/
def NodeVisit.toVisit (nv : NodeVisit) : Visit := .node nv.id nv.backward

/-- The `frontier_visit` lambda (lines 1772-1788): the node visit on one
end of a visit, even if the visit is of a child snarl. -/
def frontier_visit (v : Visit) (left_side : Bool) : Visit :=
  match v with
  | .node i b => .node i b
  | .snarl s e b =>
    if b && !left_side then (NodeVisit.toVisit s).rev
    else if !b && !left_side then NodeVisit.toVisit e
    else if b then (NodeVisit.toVisit e).rev
    else NodeVisit.toVisit s

/-- The match test of the first forward scan (lines 1840-1841): either the
ref visit's left frontier matches the bubble's right frontier, or the
bubble path ends in a child snarl and the ref visit's right frontier does. -/
def anchorMatchFull (pathBack refVisit : Visit) : Bool :=
  frontier_visit refVisit true = frontier_visit pathBack false
    || (!pathBack.isNode
        && frontier_visit refVisit false = frontier_visit pathBack false)

/-- The match test of the restarted scan (lines 1862-1863): only the first
of the two conditions is rechecked. -/
def anchorMatchSimple (pathBack refVisit : Visit) : Bool :=
  frontier_visit refVisit true = frontier_visit pathBack false

/-- Position of the first visit of a list satisfying `p`. -/
def scanList : List Visit → (Visit → Bool) → Option Nat
  | [], _ => none
  | v :: rest, p =>
    if p v then some 0 else (scanList rest p).map (fun j => j + 1)

/-- Scan `ref` forward from position `i` for the first visit satisfying
`p`; `none` when the scan runs off the end of the ref path. -/
def scanFrom (ref : List Visit) (p : Visit → Bool) (i : Nat) : Option Nat :=
  (scanList (ref.drop i) p).map (fun j => j + i)

/-- Render a visit the way `operator<<` does in the error message. -/
def describeVisit : Visit → String
  | .node i b => (if b then "-" else "+") ++ toString i
  | .snarl s e _ => "snarl " ++ toString s.id ++ ".." ++ toString e.id

/-- The error text of line 1871: it names the visit that could not be
found. -/
def anchorErrorMsg (pathBack : Visit) : String :=
  "Couldnt find " ++ describeVisit pathBack ++ " in backbone path of site"

/-- Relocation of the bubble's right anchor in the ref path
(lines 1828-1876): scan forward from the current ref position; if the
scan runs out, restart once from the beginning; if that also runs out,
throw a runtime error naming the missing anchor. -/
def relocate_right_anchor (ref : List Visit) (i : Nat) (pathBack : Visit) :
    Except String Nat :=
  match scanFrom ref (anchorMatchFull pathBack) i with
  | some j => .ok j
  | none =>
    match scanFrom ref (anchorMatchSimple pathBack) 0 with
    | some j => .ok j
    | none => .error (anchorErrorMsg pathBack)

/-! ### The seed loops of `find_traversals` (lines 1921-2049) -/

/-- One seed loop (nodes at 1921-1963, edges at 1970-2018, children at
2026-2049): for each seed, run `find_bubble`; when its path is empty,
skip the seed (optionally warning) and keep going; otherwise extend the
path into an allele and accumulate it into the traversal set. -/
def process_seeds {α : Type} (bubblePath : α → List Visit)
    (extendIntoAllele : List Visit → List (List Visit) → List (List Visit))
    (seeds : List α) (travSet : List (List Visit)) : List (List Visit) :=
  seeds.foldl
    (fun acc seed =>
      let path := bubblePath seed
      if path.isEmpty then acc else extendIntoAllele path acc)
    travSet

/-! ### Bounded bubble search: `bfs_left` (lines 2459-2664) and
`bfs_right` (lines 2666-2687) -/

/-- `to_left_side(visit).node`: the node at the left edge of a visit.
For a snarl visit it is the boundary node the search would leave on
(the end node when traversing the child backward, the start node
otherwise). -/
def Visit.leftSideNodeId : Visit → Nat
  | .node i _ => i
  | .snarl s e b => if b then e.id else s.id

/-- The collaborators `bfs_left` consults, as opaque functions: the path
index (`index.by_id.count`), `snarl_manager.visits_left`, the support
provider, and node sequence lengths for `bp_length`. -/
structure BfsEnv where
  onIndex : Nat → Bool
  visitsLeft : Visit → List Visit
  hasSupports : Bool
  nodeSupportTotal : Nat → ℚ
  edgeSupportTotal : Visit → Visit → ℚ
  nodeLen : Nat → Nat

/-- `bp_length` (lines 2689-2699): sum of node sequence lengths over the
node visits of a path; snarl visits contribute nothing. -/
def bp_length (env : BfsEnv) (path : List Visit) : Nat :=
  path.foldl
    (fun acc v =>
      match v with
      | .node i _ => acc + env.nodeLen i
      | .snarl _ _ _ => acc)
    0

/-- The three emission tests of the `bfs_left` loop (lines 2514-2551):
the front of the path anchors on the backbone when it is a node on the
path index, a forward snarl visit whose start node is on the index, or a
backward snarl visit whose end node is on the index. -/
def frontAnchored (env : BfsEnv) : Visit → Bool
  | .node i _ => env.onIndex i
  | .snarl s e b => if !b then env.onIndex s.id else env.onIndex e.id

/-- The support pruning of an extension candidate (lines 2569-2609): with
support data present, a node extension is rejected when the node or the
connecting edge has zero total support, and a snarl extension is rejected
when the node it would leave the child on has zero total support. -/
def supportReject (env : BfsEnv) (prevVisit front : Visit) : Bool :=
  match prevVisit with
  | .node i _ =>
    env.hasSupports
      && (env.nodeSupportTotal i = 0
          || env.edgeSupportTotal prevVisit front = 0)
  | .snarl s e b =>
    env.hasSupports
      && env.nodeSupportTotal (Visit.leftSideNodeId (.snarl s e b)) = 0

/-- The state of the `bfs_left` loop: the queue of partial paths to
extend, the set of visits already queued, and the emitted results.
`stillToExtend` in the C++ always equals `toExtend.length`. -/
structure BfsState where
  toExtend : List (List Visit)
  alreadyQueued : List Visit
  results : List (Nat × List Visit)
deriving DecidableEq, Repr

/-- Handling of a single extension candidate (lines 2566-2651): reject it
on support, on `stopIfVisited` when already queued, or when the queue is
already `max_width` wide; otherwise enqueue the extended path and mark
the candidate as queued. -/
def extendWith (env : BfsEnv) (stopIfVisited : Bool) (maxWidth : Nat)
    (path : List Visit) (front : Visit) (st : BfsState) (prevVisit : Visit) :
    BfsState :=
  if supportReject env prevVisit front then st
  else if stopIfVisited && prevVisit ∈ st.alreadyQueued then st
  else if maxWidth ≤ st.toExtend.length then st
  else
    { st with
      toExtend := st.toExtend ++ [prevVisit :: path]
      alreadyQueued := st.alreadyQueued ++ [prevVisit] }

/-- One iteration of the `bfs_left` loop (lines 2490-2661): dequeue a
path; if its front anchors on the backbone, emit it with its bp length
and do not extend it; otherwise, if it is within `max_depth`, try every
extension offered by `visits_left`; otherwise drop it silently. -/
def bfsIter (env : BfsEnv) (stopIfVisited : Bool) (maxDepth maxWidth : Nat)
    (st : BfsState) : BfsState :=
  match st.toExtend with
  | [] => st
  | path :: rest =>
    let st' : BfsState := { st with toExtend := rest }
    match path with
    | [] => st'
    | front :: tail =>
      if frontAnchored env front then
        { st' with
          results := st'.results ++ [(bp_length env (front :: tail), front :: tail)] }
      else if (front :: tail).length ≤ maxDepth then
        (env.visitsLeft front).foldl
          (extendWith env stopIfVisited maxWidth (front :: tail) front) st'
      else st'

/-- Run the `bfs_left` loop to completion, fuelled: the C++ loop runs
until the queue empties; `fuel` bounds the number of iterations we
unfold. -/
def bfsRun (env : BfsEnv) (stopIfVisited : Bool) (maxDepth maxWidth : Nat) :
    Nat → BfsState → BfsState
  | 0, st => st
  | fuel + 1, st =>
    if st.toExtend.isEmpty then st
    else bfsRun env stopIfVisited maxDepth maxWidth fuel
      (bfsIter env stopIfVisited maxDepth maxWidth st)

/-- The initial state of `bfs_left` (lines 2476-2478): the seed visit as
a one-visit path, already marked queued, no results yet. -/
def bfsInit (visit : Visit) : BfsState :=
  { toExtend := [[visit]], alreadyQueued := [visit], results := [] }

/-- `bfs_left` (lines 2459-2664): run the loop from the seed and return
the emitted (bp length, path) records. -/
def bfs_left (env : BfsEnv) (visit : Visit) (stopIfVisited : Bool)
    (maxDepth maxWidth fuel : Nat) : List (Nat × List Visit) :=
  (bfsRun env stopIfVisited maxDepth maxWidth fuel (bfsInit visit)).results

/-- `bfs_right` (lines 2666-2687): look left from the reversed visit,
then flip every returned path to run the other way, reversing each visit
in place; the stored bp length is carried over unchanged. -/
def bfs_right (env : BfsEnv) (visit : Visit) (stopIfVisited : Bool)
    (maxDepth maxWidth fuel : Nat) : List (Nat × List Visit) :=
  (bfs_left env visit.rev stopIfVisited maxDepth maxWidth fuel).map
    (fun lengthAndPath => (lengthAndPath.1, reverseFlip lengthAndPath.2))

/-- A concrete search environment used to evaluate the bounded search: a
three-node left-to-right chain `1 ← 2 ← 3` where only node `3` is on the
backbone, and no support data.  A seed at node `1` needs two hops to
reach the backbone. -/
def twoHopEnv : BfsEnv :=
  { onIndex := fun i => i == 3
    visitsLeft := fun v =>
      match v with
      | .node 1 false => [.node 2 false]
      | .node 2 false => [.node 3 false]
      | _ => []
    hasSupports := false
    nodeSupportTotal := fun _ => 0
    edgeSupportTotal := fun _ _ => 0
    nodeLen := fun _ => 1 }

/-! ## Theorems -/

namespace Visit

theorem rev_rev (v : Visit) : v.rev.rev = v := by
  cases v <;> simp [rev]

theorem rev_injective : Function.Injective rev := by
  intro a b h
  have h2 := congrArg rev h
  rwa [rev_rev, rev_rev] at h2

end Visit

/-- C1: for every snarl whose start and end are on different nodes, the
type is assigned by the first matching rule of the decision table — not
start-end reachable, or a self-reachable boundary, or a non-ultrabubble
child, or a cyclic flattened net graph each force UNCLASSIFIED, and
otherwise the snarl is an ULTRABUBBLE; consequently every ULTRABUBBLE
snarl has `start_end_reachable`, neither boundary self-reachable, all
children ULTRABUBBLE, and an acyclic flattened net graph. -/
theorem classify_decision_table (s e : NodeVisit) (conn : Connectivity)
    (cc : List (List SnarlType)) (hne : s.id ≠ e.id) :
    (conn.start_end_reachable = false → classify s e conn cc = .UNCLASSIFIED)
    ∧ ((conn.start_self_reachable = true ∨ conn.end_self_reachable = true) →
        classify s e conn cc = .UNCLASSIFIED)
    ∧ (all_ultrabubble_children cc = false → classify s e conn cc = .UNCLASSIFIED)
    ∧ (conn.directed_acyclic_net_graph = false → classify s e conn cc = .UNCLASSIFIED)
    ∧ (conn.start_end_reachable = true → conn.start_self_reachable = false →
        conn.end_self_reachable = false → all_ultrabubble_children cc = true →
        conn.directed_acyclic_net_graph = true →
        classify s e conn cc = .ULTRABUBBLE)
    ∧ (classify s e conn cc = .ULTRABUBBLE →
        conn.start_end_reachable = true ∧ conn.start_self_reachable = false
        ∧ conn.end_self_reachable = false ∧ all_ultrabubble_children cc = true
        ∧ conn.directed_acyclic_net_graph = true) := by
  have hcl : classify s e conn cc =
      (if !conn.start_end_reachable then .UNCLASSIFIED
       else if conn.start_self_reachable || conn.end_self_reachable then .UNCLASSIFIED
       else if !(all_ultrabubble_children cc) then .UNCLASSIFIED
       else if !conn.directed_acyclic_net_graph then .UNCLASSIFIED
       else .ULTRABUBBLE) := by
    unfold classify
    rw [if_neg hne]
  rcases conn with ⟨ser, sss, ess, dag⟩
  cases ser <;> cases sss <;> cases ess <;> cases dag <;>
    cases hub : all_ultrabubble_children cc <;>
      simp_all [hcl]

/-- Witness for C1: a through-connected, boundary-acyclic, childless,
acyclic snarl on distinct nodes classifies as ULTRABUBBLE. -/
theorem classify_decision_table_witness :
    classify ⟨1, false⟩ ⟨2, false⟩ ⟨true, false, false, true⟩ [] = .ULTRABUBBLE :=
  (classify_decision_table ⟨1, false⟩ ⟨2, false⟩ ⟨true, false, false, true⟩ []
      (by decide)).2.2.2.2.1 rfl rfl rfl (by decide) rfl

/-- C2 counterexample: classification compares only the node ids of the
boundary visits, so a snarl whose start and end visits are the same node
with opposite orientations — the shape every cactus unary snarl takes —
is UNARY even though its boundaries are not the same node-side (same id
and same orientation), contradicting the claimed equivalence. -/
theorem classify_unary_counterexample :
    ¬ (classify ⟨5, false⟩ ⟨5, true⟩ ⟨true, false, false, true⟩ [] = .UNARY
       ↔ ((⟨5, false⟩ : NodeVisit).id = (⟨5, true⟩ : NodeVisit).id
          ∧ (⟨5, false⟩ : NodeVisit).backward = (⟨5, true⟩ : NodeVisit).backward)) := by
  decide

/-- C2 (amended): a snarl's type is UNARY if and only if its start and
end visits are on the same node id; the orientations of the boundary
visits are not compared, and the connectivity flags are irrelevant. -/
theorem classify_unary_iff_same_node (s e : NodeVisit) (conn : Connectivity)
    (cc : List (List SnarlType)) :
    classify s e conn cc = .UNARY ↔ s.id = e.id := by
  by_cases h : s.id = e.id
  · simp [classify, h]
  · unfold classify
    rw [if_neg h]
    split_ifs <;> simp [h]

/-- C8 counterexample: `support_min` is not the componentwise minimum
over every component — the `left` field of the result is the
default-constructed `0`, not the minimum of the inputs' `left` fields. -/
theorem support_min_counterexample :
    (support_min ⟨1, 1, 5, 7, 1⟩ ⟨1, 1, 3, 2, 1⟩).left ≠ min (5 : ℚ) 3 := by
  norm_num [support_min]

/-- C8 (amended): `support_min` takes the componentwise minimum of the
forward, reverse and quality components and leaves the left and right
counts of the result at the default 0; the Support sum operator adds
every component; and `total s = s.forward + s.reverse`. -/
theorem support_arithmetic (a b s : Support) :
    (support_min a b).forward = min a.forward b.forward
    ∧ (support_min a b).reverse = min a.reverse b.reverse
    ∧ (support_min a b).quality = min a.quality b.quality
    ∧ (support_min a b).left = 0
    ∧ (support_min a b).right = 0
    ∧ (support_add a b).forward = a.forward + b.forward
    ∧ (support_add a b).reverse = a.reverse + b.reverse
    ∧ (support_add a b).left = a.left + b.left
    ∧ (support_add a b).right = a.right + b.right
    ∧ (support_add a b).quality = a.quality + b.quality
    ∧ total s = s.forward + s.reverse :=
  ⟨rfl, rfl, rfl, rfl, rfl, rfl, rfl, rfl, rfl, rfl, rfl⟩

/-- C9: `find_snarls` on an empty graph returns the empty but valid
SnarlManager — no snarls and no chains — without invoking the cactus
decomposition at all (the result is independent of it). -/
theorem find_snarls_empty_graph (decomposition : GraphModel → SnarlManagerModel)
    (g : GraphModel) (h : g.size = 0) :
    find_snarls decomposition g = SnarlManagerModel.empty
    ∧ (find_snarls decomposition g).snarls = []
    ∧ (find_snarls decomposition g).chains = []
    ∧ ∀ d2, find_snarls decomposition g = find_snarls d2 g := by
  refine ⟨?_, ?_, ?_, ?_⟩ <;> simp [find_snarls, h, SnarlManagerModel.empty]

/-- Witness for C9: the zero-node graph yields the empty manager, even
with a decomposition that would report a snarl. -/
theorem find_snarls_empty_graph_witness :
    find_snarls (fun _ => ⟨[(⟨1, false⟩, ⟨2, false⟩, .UNCLASSIFIED)], [[0]]⟩) ⟨[]⟩
      = SnarlManagerModel.empty :=
  (find_snarls_empty_graph (fun _ => ⟨[(⟨1, false⟩, ⟨2, false⟩, .UNCLASSIFIED)], [[0]]⟩)
    ⟨[]⟩ rfl).1

/-- C5: `find_traversals` on a non-ULTRABUBBLE snarl fails with the entry
precondition assertion before the rest of the computation (including all
path-index access) is consulted, while on an ULTRABUBBLE snarl that
failure is never raised, whatever the rest of the computation does. -/
theorem find_traversals_precondition (siteType : SnarlType)
    (rest : Except LateFailure (List (List Visit))) :
    (siteType ≠ .ULTRABUBBLE →
      find_traversals_entry siteType rest = .error .preconditionNotUltrabubble
      ∧ ∀ rest2, find_traversals_entry siteType rest = find_traversals_entry siteType rest2)
    ∧ (siteType = .ULTRABUBBLE →
      find_traversals_entry siteType rest ≠ .error .preconditionNotUltrabubble) := by
  constructor
  · intro h
    constructor
    · simp [find_traversals_entry, h]
    · intro rest2
      simp [find_traversals_entry, h]
  · intro h
    subst h
    cases rest with
    | ok travs => simp [find_traversals_entry]
    | error e =>
      simp only [find_traversals_entry, if_pos rfl]
      intro hcontra
      cases e <;> simp [LateFailure.lift] at hcontra

/-- Witness for C5: calling on a UNARY snarl yields exactly the
precondition failure. -/
theorem find_traversals_precondition_witness :
    find_traversals_entry .UNARY (.ok []) = .error .preconditionNotUltrabubble :=
  ((find_traversals_precondition .UNARY (.ok [])).1 (by decide)).1

/-- C7: a seed whose `find_bubble` path comes back empty contributes
nothing — the seed loop just moves on, and the traversal set computed
over the remaining seeds is exactly the set computed with that seed
removed; no seed with an empty bubble aborts the search. -/
theorem process_seeds_drops_empty {α : Type} (bubblePath : α → List Visit)
    (extendIntoAllele : List Visit → List (List Visit) → List (List Visit))
    (pre post : List α) (s : α) (travSet : List (List Visit))
    (h : bubblePath s = []) :
    process_seeds bubblePath extendIntoAllele (pre ++ s :: post) travSet
      = process_seeds bubblePath extendIntoAllele (pre ++ post) travSet := by
  unfold process_seeds
  rw [List.foldl_append, List.foldl_append, List.foldl_cons, h]
  simp

/-- Witness for C7: dropping the empty-bubble seed `0` from `[1, 0, 2]`
leaves the traversal set unchanged. -/
theorem process_seeds_drops_empty_witness :
    process_seeds (fun n => if n = 0 then [] else [.node n false])
        (fun p acc => acc ++ [p]) [1, 0, 2] []
      = process_seeds (fun n => if n = 0 then [] else [.node n false])
        (fun p acc => acc ++ [p]) [1, 2] [] :=
  process_seeds_drops_empty (fun n => if n = 0 then [] else [.node n false])
    (fun p acc => acc ++ [p]) [1] [2] 0 [] (by decide)

theorem scanList_some (p : Visit → Bool) :
    ∀ (l : List Visit) (j : Nat), scanList l p = some j →
      ∃ h : j < l.length, p (l.get ⟨j, h⟩) = true := by
  intro l
  induction l with
  | nil => intro j h; simp [scanList] at h
  | cons v rest ih =>
    intro j h
    by_cases hv : p v
    · simp [scanList, hv] at h
      subst h
      exact ⟨by simp, by simpa using hv⟩
    · simp [scanList, hv] at h
      obtain ⟨j', hj', rfl⟩ := h
      obtain ⟨hlt, hp⟩ := ih j' hj'
      exact ⟨by simpa using Nat.succ_lt_succ hlt, by simpa using hp⟩

theorem scanFrom_some (ref : List Visit) (p : Visit → Bool) (i j : Nat)
    (h : scanFrom ref p i = some j) :
    i ≤ j ∧ ∃ hlt : j < ref.length, p (ref.get ⟨j, hlt⟩) = true := by
  simp only [scanFrom, Option.map_eq_some'] at h
  obtain ⟨j', hj', rfl⟩ := h
  obtain ⟨hlt, hp⟩ := scanList_some p (ref.drop i) j' hj'
  rw [List.length_drop] at hlt
  have hlt2 : j' + i < ref.length := by omega
  refine ⟨by omega, hlt2, ?_⟩
  have : (ref.drop i).get ⟨j', by rw [List.length_drop]; omega⟩
      = ref.get ⟨j' + i, hlt2⟩ := by
    simp [List.get_eq_getElem, List.getElem_drop]
    congr 1
    omega
  rwa [this] at hp

/-- C6: relocating a bubble's right anchor in the backbone scans forward
from the current ref position; if that scan runs out, the scan is
restarted exactly once from the beginning of the ref path; only when the
restarted scan also fails does the operation throw a runtime error whose
message names the missing anchor — a successful relocation always lands
on a visit matching the anchor, never silently skipping the bubble. -/
theorem relocate_anchor_retry (ref : List Visit) (i : Nat) (pathBack : Visit) :
    (∀ msg, relocate_right_anchor ref i pathBack = .error msg ↔
       (scanFrom ref (anchorMatchFull pathBack) i = none
        ∧ scanFrom ref (anchorMatchSimple pathBack) 0 = none
        ∧ msg = anchorErrorMsg pathBack))
    ∧ (∀ j, scanFrom ref (anchorMatchFull pathBack) i = some j →
        relocate_right_anchor ref i pathBack = .ok j ∧ i ≤ j)
    ∧ (∀ j, scanFrom ref (anchorMatchFull pathBack) i = none →
        scanFrom ref (anchorMatchSimple pathBack) 0 = some j →
        relocate_right_anchor ref i pathBack = .ok j)
    ∧ (∀ j, relocate_right_anchor ref i pathBack = .ok j →
        ∃ hlt : j < ref.length,
          (anchorMatchFull pathBack (ref.get ⟨j, hlt⟩) = true
           ∨ anchorMatchSimple pathBack (ref.get ⟨j, hlt⟩) = true))
    ∧ anchorErrorMsg pathBack
        = "Couldnt find " ++ describeVisit pathBack ++ " in backbone path of site" := by
  refine ⟨?_, ?_, ?_, ?_, rfl⟩
  · intro msg
    cases hfull : scanFrom ref (anchorMatchFull pathBack) i with
    | some j => simp [relocate_right_anchor, hfull]
    | none =>
      cases hsimple : scanFrom ref (anchorMatchSimple pathBack) 0 with
      | some j => simp [relocate_right_anchor, hfull, hsimple]
      | none =>
        simp [relocate_right_anchor, hfull, hsimple]
        tauto
  · intro j hfull
    exact ⟨by simp [relocate_right_anchor, hfull], (scanFrom_some ref _ i j hfull).1⟩
  · intro j hfull hsimple
    simp [relocate_right_anchor, hfull, hsimple]
  · intro j hok
    cases hfull : scanFrom ref (anchorMatchFull pathBack) i with
    | some j' =>
      obtain ⟨_, hlt, hp⟩ := scanFrom_some ref _ i j' hfull
      have hj : j' = j := by simpa [relocate_right_anchor, hfull] using hok
      subst hj
      exact ⟨hlt, Or.inl hp⟩
    | none =>
      cases hsimple : scanFrom ref (anchorMatchSimple pathBack) 0 with
      | some j' =>
        obtain ⟨_, hlt, hp⟩ := scanFrom_some ref _ 0 j' hsimple
        have hj : j' = j := by simpa [relocate_right_anchor, hfull, hsimple] using hok
        subst hj
        exact ⟨hlt, Or.inr hp⟩
      | none => simp [relocate_right_anchor, hfull, hsimple] at hok

/-- Witness for C6: with a one-visit ref path and the scan position past
the end, the first scan fails, and the restarted scan finds the anchor at
position 0. -/
theorem relocate_anchor_retry_witness :
    relocate_right_anchor [.node 7 false] 1 (.node 7 false) = .ok 0 :=
  (relocate_anchor_retry [.node 7 false] 1 (.node 7 false)).2.2.1 0
    (by decide) (by decide)

theorem mem_insertTraversal (s : List (List Visit)) (t x : List Visit) :
    x ∈ insertTraversal s t ↔ x ∈ s ∨ x = t := by
  unfold insertTraversal
  split_ifs with h
  · exact ⟨Or.inl, fun hx => hx.elim id (fun he => he ▸ h)⟩
  · simp

theorem mem_foldl_insertTraversal (cands : List (List Visit)) :
    ∀ (acc : List (List Visit)) (x : List Visit),
      x ∈ cands.foldl insertTraversal acc ↔ x ∈ acc ∨ x ∈ cands := by
  induction cands with
  | nil => simp
  | cons c rest ih =>
    intro acc x
    rw [List.foldl_cons, ih, mem_insertTraversal]
    simp only [List.mem_cons]
    tauto

theorem mem_buildTraversalSet (cands : List (List Visit)) (x : List Visit) :
    x ∈ buildTraversalSet cands ↔ x ∈ cands := by
  unfold buildTraversalSet
  rw [mem_foldl_insertTraversal]
  simp

theorem nodup_insertTraversal (s : List (List Visit)) (t : List Visit)
    (h : s.Nodup) : (insertTraversal s t).Nodup := by
  unfold insertTraversal
  split_ifs with ht
  · exact h
  · rw [List.nodup_append]
    refine ⟨h, List.nodup_singleton t, ?_⟩
    intro a ha hat
    rw [List.mem_singleton] at hat
    exact ht (hat ▸ ha)

theorem nodup_foldl_insertTraversal (cands : List (List Visit)) :
    ∀ acc : List (List Visit), acc.Nodup →
      (cands.foldl insertTraversal acc).Nodup := by
  induction cands with
  | nil => intro acc h; simpa using h
  | cons c rest ih =>
    intro acc h
    rw [List.foldl_cons]
    exact ih _ (nodup_insertTraversal acc c h)

theorem nodup_buildTraversalSet (cands : List (List Visit)) :
    (buildTraversalSet cands).Nodup :=
  nodup_foldl_insertTraversal cands [] List.nodup_nil

theorem reverseFlip_reverseFlip (l : List Visit) :
    reverseFlip (reverseFlip l) = l := by
  unfold reverseFlip
  rw [← List.map_reverse, List.reverse_reverse, List.map_map]
  have hid : Visit.rev ∘ Visit.rev = id := funext Visit.rev_rev
  rw [hid, List.map_id]

theorem reverseFlip_injective : Function.Injective reverseFlip := by
  intro a b h
  have h2 := congrArg reverseFlip h
  rwa [reverseFlip_reverseFlip, reverseFlip_reverseFlip] at h2

theorem emit_traversal_injective (ss se : Nat) :
    Function.Injective (emit_traversal ss se) := by
  intro a b h
  by_cases hgt : ss > se <;> simp only [emit_traversal, hgt, if_true, if_false] at h
  · exact reverseFlip_injective h
  · exact h

/-- C3: the emission phase of `find_traversals` returns the converted
reference traversal first (equal to the linear-index ref trace itself
when the backbone runs with the snarl); the traversal set collects
exactly the spliced candidate paths, deduplicated by exact visit-sequence
equality; every distinct non-reference member is emitted exactly once
after the reference; and every emitted traversal is converted into the
snarl's own orientation — reversed with every visit flipped when the
backbone runs opposite (`site_start > site_end`), unchanged otherwise. -/
theorem emission_phase_spec (ss se : Nat) (ref : List Visit)
    (cands : List (List Visit)) :
    (emission_phase ss se ref (buildTraversalSet cands)).head?
        = some (emit_traversal ss se ref)
    ∧ (ss ≤ se →
        (emission_phase ss se ref (buildTraversalSet cands)).head? = some ref)
    ∧ (∀ t, t ∈ buildTraversalSet cands ↔ t ∈ cands)
    ∧ (buildTraversalSet cands).Nodup
    ∧ (∀ p, p ∈ cands → p ≠ ref →
        emit_traversal ss se p ∈ emission_phase ss se ref (buildTraversalSet cands))
    ∧ (∀ q, q ∈ emission_phase ss se ref (buildTraversalSet cands) →
        q = emit_traversal ss se ref
        ∨ ∃ p, p ∈ cands ∧ p ≠ ref ∧ q = emit_traversal ss se p)
    ∧ (emission_phase ss se ref (buildTraversalSet cands)).Nodup
    ∧ (se < ss → ∀ p, emit_traversal ss se p = (p.reverse).map Visit.rev)
    ∧ (ss ≤ se → ∀ p, emit_traversal ss se p = p) := by
  refine ⟨rfl, ?_, mem_buildTraversalSet cands, nodup_buildTraversalSet cands,
    ?_, ?_, ?_, ?_, ?_⟩
  · intro hle
    simp [emission_phase, emit_traversal, Nat.not_lt.mpr hle]
  · intro p hp hne
    unfold emission_phase
    refine List.mem_cons_of_mem _ (List.mem_map_of_mem _ ?_)
    rw [List.mem_filter]
    exact ⟨(mem_buildTraversalSet cands p).mpr hp, by simpa using hne⟩
  · intro q hq
    rcases List.mem_cons.mp hq with hq | hq
    · exact Or.inl hq
    · obtain ⟨p, hpf, rfl⟩ := List.mem_map.mp hq
      rw [List.mem_filter] at hpf
      exact Or.inr ⟨p, (mem_buildTraversalSet cands p).mp hpf.1, by simpa using hpf.2, rfl⟩
  · unfold emission_phase
    rw [List.nodup_cons]
    constructor
    · intro hmem
      obtain ⟨p, hpf, hpe⟩ := List.mem_map.mp hmem
      rw [List.mem_filter] at hpf
      have : p = ref := emit_traversal_injective ss se hpe
      simp [this] at hpf
    · exact List.Nodup.map (emit_traversal_injective ss se)
        ((nodup_buildTraversalSet cands).filter _)
  · intro hlt p
    simp [emit_traversal, hlt, reverseFlip]
  · intro hle p
    simp [emit_traversal, Nat.not_lt.mpr hle]

/-- Witness for C3: with the backbone running with the snarl, the first
emitted traversal is the ref trace itself. -/
theorem emission_phase_spec_witness :
    (emission_phase 0 1 [.node 1 false]
      (buildTraversalSet [[.node 1 false], [.node 2 true]])).head?
      = some [.node 1 false] :=
  (emission_phase_spec 0 1 [.node 1 false] [[.node 1 false], [.node 2 true]]).2.1
    (by decide)

theorem extendWith_results (env : BfsEnv) (sv : Bool) (mw : Nat)
    (path : List Visit) (front : Visit) (st : BfsState) (pv : Visit) :
    (extendWith env sv mw path front st pv).results = st.results := by
  unfold extendWith
  split_ifs <;> rfl

theorem foldl_extendWith_results (env : BfsEnv) (sv : Bool) (mw : Nat)
    (path : List Visit) (front : Visit) (l : List Visit) :
    ∀ st : BfsState,
      (l.foldl (extendWith env sv mw path front) st).results = st.results := by
  induction l with
  | nil => intro st; rfl
  | cons pv rest ih =>
    intro st
    rw [List.foldl_cons, ih, extendWith_results]

theorem extendWith_queue_le (env : BfsEnv) (sv : Bool) (mw : Nat)
    (path : List Visit) (front : Visit) (st : BfsState) (pv : Visit) :
    st.toExtend.length ≤ (extendWith env sv mw path front st pv).toExtend.length := by
  unfold extendWith
  split_ifs <;> simp

theorem foldl_extendWith_queue_le (env : BfsEnv) (sv : Bool) (mw : Nat)
    (path : List Visit) (front : Visit) (l : List Visit) :
    ∀ st : BfsState,
      st.toExtend.length ≤ (l.foldl (extendWith env sv mw path front) st).toExtend.length := by
  induction l with
  | nil => intro st; exact le_rfl
  | cons pv rest ih =>
    intro st
    rw [List.foldl_cons]
    exact le_trans (extendWith_queue_le env sv mw path front st pv) (ih _)

theorem extendWith_queue_bounded (env : BfsEnv) (sv : Bool) (mw : Nat)
    (path : List Visit) (front : Visit) (st : BfsState) (pv : Visit)
    (h : st.toExtend.length ≤ mw) :
    (extendWith env sv mw path front st pv).toExtend.length ≤ mw := by
  unfold extendWith
  split_ifs with h1 h2 h3
  · exact h
  · exact h
  · exact h
  · simp only [List.length_append, List.length_singleton]
    omega

theorem foldl_extendWith_queue_bounded (env : BfsEnv) (sv : Bool) (mw : Nat)
    (path : List Visit) (front : Visit) (l : List Visit) :
    ∀ st : BfsState, st.toExtend.length ≤ mw →
      (l.foldl (extendWith env sv mw path front) st).toExtend.length ≤ mw := by
  induction l with
  | nil => intro st h; exact h
  | cons pv rest ih =>
    intro st h
    rw [List.foldl_cons]
    exact ih _ (extendWith_queue_bounded env sv mw path front st pv h)

theorem extendWith_accepted (env : BfsEnv) (sv : Bool) (mw : Nat)
    (path : List Visit) (front : Visit) (st : BfsState) (pv : Visit)
    (h1 : supportReject env pv front = false)
    (h2 : ¬ (sv = true ∧ pv ∈ st.alreadyQueued))
    (h3 : st.toExtend.length < mw) :
    extendWith env sv mw path front st pv =
      { st with
        toExtend := st.toExtend ++ [pv :: path]
        alreadyQueued := st.alreadyQueued ++ [pv] } := by
  unfold extendWith
  split_ifs with ha hb hc
  · rw [h1] at ha
    cases ha
  · rw [Bool.and_eq_true] at hb
    exact absurd ⟨hb.1, of_decide_eq_true hb.2⟩ h2
  · omega
  · rfl

theorem foldl_extendWith_progress (env : BfsEnv) (sv : Bool) (mw : Nat)
    (path : List Visit) (front : Visit) :
    ∀ (l : List Visit) (st : BfsState), st.toExtend.length < mw →
      (∃ pv, pv ∈ l ∧ supportReject env pv front = false
        ∧ ¬ (sv = true ∧ pv ∈ st.alreadyQueued)) →
      st.toExtend.length <
        (l.foldl (extendWith env sv mw path front) st).toExtend.length := by
  intro l
  induction l with
  | nil =>
    intro st _ hex
    obtain ⟨pv, hm, _⟩ := hex
    simp at hm
  | cons pv0 rest ih =>
    intro st hlt hex
    obtain ⟨pv, hm, hsup, hvis⟩ := hex
    rw [List.foldl_cons]
    by_cases h1 : supportReject env pv0 front = true
    · have hst : extendWith env sv mw path front st pv0 = st := by
        unfold extendWith
        rw [if_pos h1]
      rw [hst]
      rcases List.mem_cons.mp hm with rfl | hpv
      · rw [h1] at hsup
        cases hsup
      · exact ih st hlt ⟨pv, hpv, hsup, hvis⟩
    · rw [Bool.not_eq_true] at h1
      by_cases h2 : sv = true ∧ pv0 ∈ st.alreadyQueued
      · have hst : extendWith env sv mw path front st pv0 = st := by
          unfold extendWith
          rw [if_neg (by simp [h1]), if_pos (by simp [h2.1, h2.2])]
        rw [hst]
        rcases List.mem_cons.mp hm with rfl | hpv
        · exact absurd h2 hvis
        · exact ih st hlt ⟨pv, hpv, hsup, hvis⟩
      · rw [extendWith_accepted env sv mw path front st pv0 h1 h2 hlt]
        refine lt_of_lt_of_le ?_ (foldl_extendWith_queue_le env sv mw path front rest _)
        simp

theorem bfsIter_anchored (env : BfsEnv) (sv : Bool) (md mw : Nat)
    (st : BfsState) (f : Visit) (t : List Visit) (rest : List (List Visit))
    (hq : st.toExtend = (f :: t) :: rest) (ha : frontAnchored env f = true) :
    bfsIter env sv md mw st =
      { st with
        toExtend := rest
        results := st.results ++ [(bp_length env (f :: t), f :: t)] } := by
  obtain ⟨q, aq, res⟩ := st
  simp only at hq
  subst hq
  simp [bfsIter, ha]

theorem bfsIter_overdepth (env : BfsEnv) (sv : Bool) (md mw : Nat)
    (st : BfsState) (f : Visit) (t : List Visit) (rest : List (List Visit))
    (hq : st.toExtend = (f :: t) :: rest) (ha : frontAnchored env f = false)
    (hd : md < (f :: t).length) :
    bfsIter env sv md mw st = { st with toExtend := rest } := by
  obtain ⟨q, aq, res⟩ := st
  simp only at hq
  subst hq
  simp only [List.length_cons] at hd
  simp [bfsIter, ha]
  intro hle
  exact absurd hle (by omega)

theorem bfsIter_extends (env : BfsEnv) (sv : Bool) (md mw : Nat)
    (st : BfsState) (f : Visit) (t : List Visit) (rest : List (List Visit))
    (hq : st.toExtend = (f :: t) :: rest) (ha : frontAnchored env f = false)
    (hd : (f :: t).length ≤ md) :
    bfsIter env sv md mw st =
      (env.visitsLeft f).foldl (extendWith env sv mw (f :: t) f)
        { st with toExtend := rest } := by
  obtain ⟨q, aq, res⟩ := st
  simp only at hq
  subst hq
  simp only [List.length_cons] at hd
  simp [bfsIter, ha]
  intro hlt
  exact absurd hd (by omega)

theorem bfsIter_queue_bounded (env : BfsEnv) (sv : Bool) (md mw : Nat)
    (st : BfsState) (h : st.toExtend.length ≤ mw) :
    (bfsIter env sv md mw st).toExtend.length ≤ mw := by
  obtain ⟨q, aq, res⟩ := st
  match q with
  | [] => simp only [bfsIter]; exact h
  | path :: rest =>
    have hrest : rest.length ≤ mw := by
      simp only [List.length_cons] at h
      omega
    match path with
    | [] => simpa [bfsIter] using hrest
    | f :: t =>
      by_cases ha : frontAnchored env f = true
      · rw [bfsIter_anchored env sv md mw _ f t rest rfl ha]
        simpa using hrest
      · rw [Bool.not_eq_true] at ha
        by_cases hd : (f :: t).length ≤ md
        · rw [bfsIter_extends env sv md mw _ f t rest rfl ha hd]
          exact foldl_extendWith_queue_bounded env sv mw (f :: t) f _ _ (by simpa using hrest)
        · rw [bfsIter_overdepth env sv md mw _ f t rest rfl ha (Nat.not_le.mp hd)]
          simpa using hrest

theorem bfsRun_queue_bounded (env : BfsEnv) (sv : Bool) (md mw : Nat) :
    ∀ (fuel : Nat) (st : BfsState), st.toExtend.length ≤ mw →
      (bfsRun env sv md mw fuel st).toExtend.length ≤ mw := by
  intro fuel
  induction fuel with
  | zero => intro st h; exact h
  | succ n ih =>
    intro st h
    unfold bfsRun
    by_cases he : st.toExtend.isEmpty
    · rw [if_pos he]
      exact h
    · rw [if_neg he]
      exact ih _ (bfsIter_queue_bounded env sv md mw st h)

theorem bfsIter_results_good (env : BfsEnv) (sv : Bool) (md mw : Nat)
    (st : BfsState) :
    ∀ r ∈ (bfsIter env sv md mw st).results,
      r ∈ st.results
      ∨ ∃ f t, r.2 = f :: t ∧ frontAnchored env f = true
          ∧ r.1 = bp_length env r.2 := by
  obtain ⟨q, aq, res⟩ := st
  match q with
  | [] =>
    intro r hr
    exact Or.inl (by simpa [bfsIter] using hr)
  | [] :: rest =>
    intro r hr
    exact Or.inl (by simpa [bfsIter] using hr)
  | (f :: t) :: rest =>
    by_cases ha : frontAnchored env f = true
    · intro r hr
      rw [bfsIter_anchored env sv md mw _ f t rest rfl ha] at hr
      simp only [List.mem_append, List.mem_singleton] at hr
      rcases hr with hr | rfl
      · exact Or.inl hr
      · exact Or.inr ⟨f, t, rfl, ha, rfl⟩
    · rw [Bool.not_eq_true] at ha
      by_cases hd : (f :: t).length ≤ md
      · intro r hr
        rw [bfsIter_extends env sv md mw _ f t rest rfl ha hd,
          foldl_extendWith_results] at hr
        exact Or.inl hr
      · intro r hr
        rw [bfsIter_overdepth env sv md mw _ f t rest rfl ha (Nat.not_le.mp hd)] at hr
        exact Or.inl hr

theorem bfsRun_results_good (env : BfsEnv) (sv : Bool) (md mw : Nat) :
    ∀ (fuel : Nat) (st : BfsState),
      ∀ r ∈ (bfsRun env sv md mw fuel st).results,
        r ∈ st.results
        ∨ ∃ f t, r.2 = f :: t ∧ frontAnchored env f = true
            ∧ r.1 = bp_length env r.2 := by
  intro fuel
  induction fuel with
  | zero => intro st r hr; exact Or.inl hr
  | succ n ih =>
    intro st r hr
    unfold bfsRun at hr
    by_cases he : st.toExtend.isEmpty
    · rw [if_pos he] at hr
      exact Or.inl hr
    · rw [if_neg he] at hr
      rcases ih _ r hr with hin | hgood
      · exact bfsIter_results_good env sv md mw st r hin
      · exact Or.inr hgood

theorem bfs_left_results_good (env : BfsEnv) (v : Visit) (sv : Bool)
    (md mw fuel : Nat) :
    ∀ n p, (n, p) ∈ bfs_left env v sv md mw fuel →
      ∃ f t, p = f :: t ∧ frontAnchored env f = true ∧ n = bp_length env p := by
  intro n p hmem
  rcases bfsRun_results_good env sv md mw fuel (bfsInit v) (n, p) hmem with hin | hgood
  · simp [bfsInit] at hin
  · exact hgood

theorem bp_foldl_shift (env : BfsEnv) :
    ∀ (l : List Visit) (a : Nat),
      l.foldl
        (fun acc v =>
          match v with
          | Visit.node i _ => acc + env.nodeLen i
          | Visit.snarl _ _ _ => acc) a
      = a + l.foldl
        (fun acc v =>
          match v with
          | Visit.node i _ => acc + env.nodeLen i
          | Visit.snarl _ _ _ => acc) 0 := by
  intro l
  induction l with
  | nil => intro a; simp
  | cons v rest ih =>
    intro a
    rw [List.foldl_cons, List.foldl_cons, ih, ih
      (match v with
        | Visit.node i _ => 0 + env.nodeLen i
        | Visit.snarl _ _ _ => 0)]
    cases v <;> (simp; try omega)

theorem bp_length_append (env : BfsEnv) (l1 l2 : List Visit) :
    bp_length env (l1 ++ l2) = bp_length env l1 + bp_length env l2 := by
  unfold bp_length
  rw [List.foldl_append, bp_foldl_shift]

theorem bp_length_rev_visit (env : BfsEnv) (v : Visit) :
    bp_length env [v.rev] = bp_length env [v] := by
  cases v <;> rfl

theorem reverseFlip_cons (v : Visit) (rest : List Visit) :
    reverseFlip (v :: rest) = reverseFlip rest ++ [v.rev] := by
  simp [reverseFlip]

theorem bp_length_reverseFlip (env : BfsEnv) (l : List Visit) :
    bp_length env (reverseFlip l) = bp_length env l := by
  induction l with
  | nil => rfl
  | cons v rest ih =>
    rw [reverseFlip_cons, bp_length_append, ih, bp_length_rev_visit]
    have hcons : bp_length env (v :: rest) = bp_length env ([v] ++ rest) := rfl
    rw [hcons, bp_length_append]
    omega

/-- C4: in the bounded bubble search, a dequeued partial path whose
frontier visit anchors on the backbone (an indexed node, or a snarl visit
whose facing boundary node is indexed) is emitted with its bp length and
never extended; a dequeued unanchored path longer than `max_depth` visits
is silently discarded — no result and no error; the queue of partial
paths never grows beyond `max_width` at any iteration of the run
(starting from the one-path seed state, for any `max_width ≥ 1`), yet a
dequeued path with an admissible extension always gets at least one
extension enqueued; every path the search returns is anchored at its
front; and concretely, with `max_depth = 1`, a seed two hops from the
backbone yields no partial paths at all, while `max_depth = 2` recovers
the two-hop path. -/
theorem bfs_left_bounded (env : BfsEnv) (sv : Bool) (md mw fuel : Nat) :
    (∀ v n p, (n, p) ∈ bfs_left env v sv md mw fuel →
       ∃ f t, p = f :: t ∧ frontAnchored env f = true ∧ n = bp_length env p)
    ∧ (∀ (st : BfsState) f t rest, st.toExtend = (f :: t) :: rest →
        frontAnchored env f = true →
        bfsIter env sv md mw st =
          { st with
            toExtend := rest
            results := st.results ++ [(bp_length env (f :: t), f :: t)] })
    ∧ (∀ (st : BfsState) f t rest, st.toExtend = (f :: t) :: rest →
        frontAnchored env f = false → md < (f :: t).length →
        bfsIter env sv md mw st = { st with toExtend := rest })
    ∧ (∀ st : BfsState, st.toExtend.length ≤ mw →
        (bfsIter env sv md mw st).toExtend.length ≤ mw)
    ∧ (1 ≤ mw → ∀ (v : Visit) (k : Nat),
        (bfsRun env sv md mw k (bfsInit v)).toExtend.length ≤ mw)
    ∧ (∀ (st : BfsState) f t rest, st.toExtend = (f :: t) :: rest →
        frontAnchored env f = false → (f :: t).length ≤ md →
        st.toExtend.length ≤ mw →
        (∃ pv, pv ∈ env.visitsLeft f ∧ supportReject env pv f = false
          ∧ ¬ (sv = true ∧ pv ∈ st.alreadyQueued)) →
        rest.length < (bfsIter env sv md mw st).toExtend.length)
    ∧ bfs_left twoHopEnv (.node 1 false) false 1 5 10 = []
    ∧ bfs_left twoHopEnv (.node 1 false) false 2 5 10
        = [(3, [.node 3 false, .node 2 false, .node 1 false])] := by
  refine ⟨fun v => bfs_left_results_good env v sv md mw fuel,
    bfsIter_anchored env sv md mw, bfsIter_overdepth env sv md mw,
    bfsIter_queue_bounded env sv md mw, ?_, ?_, by decide, by decide⟩
  · intro hmw v k
    exact bfsRun_queue_bounded env sv md mw k (bfsInit v) (by simpa [bfsInit] using hmw)
  · intro st f t rest hq ha hd hw hex
    rw [bfsIter_extends env sv md mw st f t rest hq ha hd]
    have hlt : rest.length < mw := by
      rw [hq] at hw
      simp only [List.length_cons] at hw
      omega
    have := foldl_extendWith_progress env sv mw (f :: t) f (env.visitsLeft f)
      { st with toExtend := rest } (by simpa using hlt)
      (by simpa using hex)
    simpa using this

/-- Witness for C4: a dequeued unanchored two-visit path with
`max_depth = 1` is dropped, leaving an empty queue and no results. -/
theorem bfs_left_bounded_witness :
    bfsIter twoHopEnv false 1 5
        ⟨[[.node 9 false, .node 8 false]], [], []⟩ = ⟨[], [], []⟩ :=
  (bfs_left_bounded twoHopEnv false 1 5 0).2.2.1
    ⟨[[.node 9 false, .node 8 false]], [], []⟩
    (.node 9 false) [.node 8 false] [] rfl (by decide) (by decide)

/-- C10: `bfs_right` is definitionally the mirror of `bfs_left`: its
result set is exactly the set obtained from `bfs_left` of the reversed
seed visit by reversing each partial path's visit order and reversing
every visit in it; the mirroring preserves base-pair length, and the bp
length carried with each returned path is the bp length of that path. -/
theorem bfs_right_mirror (env : BfsEnv) (v : Visit) (sv : Bool)
    (md mw fuel : Nat) :
    (∀ n p, (n, p) ∈ bfs_right env v sv md mw fuel ↔
       ∃ q, (n, q) ∈ bfs_left env v.rev sv md mw fuel ∧ p = reverseFlip q)
    ∧ (∀ q, bp_length env (reverseFlip q) = bp_length env q)
    ∧ (∀ n p, (n, p) ∈ bfs_right env v sv md mw fuel →
        n = bp_length env p) := by
  have hmem : ∀ n p, (n, p) ∈ bfs_right env v sv md mw fuel ↔
      ∃ q, (n, q) ∈ bfs_left env v.rev sv md mw fuel ∧ p = reverseFlip q := by
    intro n p
    unfold bfs_right
    rw [List.mem_map]
    constructor
    · rintro ⟨⟨n', q⟩, hq, heq⟩
      simp only [Prod.mk.injEq] at heq
      exact ⟨q, heq.1 ▸ hq, heq.2.symm⟩
    · rintro ⟨q, hq, rfl⟩
      exact ⟨(n, q), hq, rfl⟩
  refine ⟨hmem, bp_length_reverseFlip env, ?_⟩
  intro n p hp
  obtain ⟨q, hq, rfl⟩ := (hmem n p).mp hp
  obtain ⟨f, t, _, _, hbp⟩ := bfs_left_results_good env v.rev sv md mw fuel n q hq
  rw [hbp]
  exact (bp_length_reverseFlip env q).symm

/-- Witness for C10: the mirrored search from the reversed backbone node
returns the flipped one-visit path, carrying its bp length. -/
theorem bfs_right_mirror_witness :
    (1, [Visit.node 3 true]) ∈ bfs_right twoHopEnv (.node 3 true) false 2 5 10
    ∧ 1 = bp_length twoHopEnv [Visit.node 3 true] :=
  ⟨by decide,
    (bfs_right_mirror twoHopEnv (.node 3 true) false 2 5 10).2.2 1
      [Visit.node 3 true] (by decide)⟩

end VG
